import Mathlib

/-!
Verification development for the audio-transcription GUI application
(`app.py`).  The worker thread `worker_transcribe` is embedded as a pure
function from the (modelled) external engine outcome to the list of events
it posts on the queue, and the UI controller (`App`) is embedded as a state
record together with one pure function per handler.  Machine floats of the
source are modelled as rationals; the thread-safe FIFO queue is modelled as
the list of events in emission order.
-/

/-! ## Worker -/

/-- A time-stamped text segment yielded by the transcription engine.
`stop` embeds the source attribute `seg.end` (`end` is reserved in Lean). -/
structure Segment where
  start : ℚ
  stop : ℚ
  text : String
deriving DecidableEq, Repr

/-- A status event posted on the queue by the worker:
`('progress', pct)`, `('text', segment_text)`, `('done', full_text)` or
`('error', msg)`. -/
inductive Event where
  | progress (p : ℚ)
  | text (s : String)
  | done (s : String)
  | error (s : String)
deriving DecidableEq, Repr

/-- Outcome of the two external-engine calls made by the worker:
`WhisperModel(...)` may raise (load error), `m.transcribe(...)` may raise
(transcription error), and on success the engine yields a finite list of
segments together with `info.duration` (absent modelled as `none`). -/
inductive EngineResult where
  | loadError (msg : String)
  | transcribeError (msg : String)
  | ok (segments : List Segment) (duration : Option ℚ)
deriving DecidableEq, Repr

/-- `duration = info.duration or 1`: Python substitutes `1` exactly when
`info.duration` is falsy, i.e. absent (`None`) or equal to `0`. -/
def effDuration : Option ℚ → ℚ
  | none => 1
  | some x => if x = 0 then 1 else x

/-- The segment loop of `worker_transcribe`: for each segment, accumulate
`done += seg.end - seg.start`, emit `('progress', min(done/duration, 1.0))`
and `('text', seg.text)`, and append `seg.text + "\n"` to `full_text`;
after the loop emit `('done', full_text)`. -/
def segLoop (duration : ℚ) : List Segment → ℚ → String → List Event
  | [], _, full_text => [Event.done full_text]
  | seg :: rest, d, full_text =>
    let d' := d + (seg.stop - seg.start)
    Event.progress (min (d' / duration) 1) ::
      Event.text seg.text ::
        segLoop duration rest d' (full_text ++ seg.text ++ "\n")

/-- `worker_transcribe(audio_path, model_size, lang_code, q)` as a function
from the engine outcome to the list of events put on `q`, in order. -/
def worker_transcribe : EngineResult → List Event
  | EngineResult.loadError e => [Event.error ("Erreur chargement modèle : " ++ e)]
  | EngineResult.transcribeError e => [Event.error ("Erreur transcription : " ++ e)]
  | EngineResult.ok segments duration => segLoop (effDuration duration) segments 0 ""

/-- An event is terminal when it is `done` or `error`. -/
def Event.isTerminal : Event → Bool
  | Event.done _ => true
  | Event.error _ => true
  | _ => false

/-- A list of events that is an alternating run of `progress`/`text` pairs. -/
def isPairRun : List Event → Bool
  | [] => true
  | Event.progress _ :: Event.text _ :: rest => isPairRun rest
  | _ => false

/-- The payloads of the `text` events of a trace, in order. -/
def textChunks : List Event → List String
  | [] => []
  | Event.text t :: rest => t :: textChunks rest
  | _ :: rest => textChunks rest

/-- Concatenation of a list of strings, each followed by a line break. -/
def joinNL : List String → String
  | [] => ""
  | t :: rest => t ++ "\n" ++ joinNL rest

/-- The payloads of the `progress` events of a trace, in order. -/
def progressPayloads : List Event → List ℚ
  | [] => []
  | Event.progress p :: rest => p :: progressPayloads rest
  | _ :: rest => progressPayloads rest

/-- Concatenation of all `text` payloads of a trace, in emission order. -/
def textConcat : List Event → String
  | [] => ""
  | Event.text t :: rest => t ++ textConcat rest
  | _ :: rest => textConcat rest

/-- The payload of the last `done` event of a trace, if any. -/
def lastDone : List Event → Option String
  | [] => none
  | Event.done s :: rest => (lastDone rest).getD s |> some
  | _ :: rest => lastDone rest

/-- `prev ≤ head` and the list is sorted (helper for monotonicity). -/
def nondecreasingFrom (prev : ℚ) : List ℚ → Bool
  | [] => true
  | a :: rest => decide (prev ≤ a) && nondecreasingFrom a rest

/-- The list is monotonically non-decreasing. -/
def nondecreasing : List ℚ → Bool
  | [] => true
  | a :: rest => nondecreasingFrom a rest

/-- The progress/text pairs emitted by the segment loop, without the final
`done` event (helper for stating the trace shape). -/
def emittedPairs (duration : ℚ) : List Segment → ℚ → List Event
  | [], _ => []
  | seg :: rest, d =>
    let d' := d + (seg.stop - seg.start)
    Event.progress (min (d' / duration) 1) :: Event.text seg.text ::
      emittedPairs duration rest d'

/-! ## UI controller -/

/-- The fixed model lookup table `MODELS`. -/
def MODELS : List (String × String) :=
  [("Tiny", "tiny"), ("Base", "base"), ("Small", "small"), ("Medium", "medium"),
   ("Large v3 (CPU lourd)", "large-v3")]

/-- The fixed language lookup table `LANGS`. -/
def LANGS : List (String × String) :=
  [("Français", "fr"), ("Anglais", "en"), ("Espagnol", "es"), ("Allemand", "de"),
   ("Italien", "it"), ("Portugais", "pt"), ("Néerlandais", "nl"), ("Russe", "ru"),
   ("Arabe", "ar"), ("Chinois", "zh"), ("Japonais", "ja")]

/-- A modal dialog raised by the UI (`messagebox.showinfo` / `showerror`). -/
inductive Dialog where
  | info (title msg : String)
  | error (title msg : String)
deriving DecidableEq, Repr

/-- A Transcription Request: the arguments the worker thread is spawned
with (besides the shared queue). -/
structure Request where
  audio_path : String
  model_size : String
  lang_code : String
deriving DecidableEq, Repr

/-- The UI-relevant state of the `App` window.  `btn_start`/`btn_save` are
`true` when the button's state is `"normal"` (enabled).  `txt` is the
content of the text view, `progressBar` the progress-bar value,
`full_text` the `self.full_text` attribute (`none` while unset),
`entry_file` the path field, `combo_model`/`combo_lang` the combo-box
selections, `q` the queue contents in FIFO order, and `dialogs` the log of
dialogs shown so far. -/
structure AppState where
  btn_start : Bool
  btn_save : Bool
  txt : String
  progressBar : ℚ
  full_text : Option String
  entry_file : String
  combo_model : String
  combo_lang : String
  q : List Event
  dialogs : List Dialog
deriving DecidableEq, Repr

/-- The state built by `App.__init__`: both action buttons disabled, empty
text view, progress 0, `self.full_text` unset, empty path field, combo
boxes set to `"Large v3 (CPU lourd)"` and `DEFAULT_LANG`, empty queue. -/
def initState : AppState :=
  { btn_start := false, btn_save := false, txt := "", progressBar := 0,
    full_text := none, entry_file := "", combo_model := "Large v3 (CPU lourd)",
    combo_lang := "Français", q := [], dialogs := [] }

/-- `App.browse_file`: `chosen` is the path returned by the open-file
dialog (`none` when cancelled).  On a chosen path the path field is
replaced and the start button enabled. -/
def browse_file (chosen : Option String) (s : AppState) : AppState :=
  match chosen with
  | none => s
  | some path => { s with entry_file := path, btn_start := true }

/-- `App.start_transcription`, parametrised by the file-existence predicate
`isfile` (`os.path.isfile`).  Returns the new UI state together with the
request the worker thread is spawned with (`none` when no thread is
spawned).  On an invalid path it shows the blocking error dialog and
returns before touching anything else.  Otherwise it clears the text view,
resets progress, disables both action buttons, resolves the combo labels
through `MODELS`/`LANGS` (an unknown label raises `KeyError`, so no queue
clearing and no spawn happen in that case), clears the queue and spawns
the worker. -/
def start_transcription (isfile : String → Bool) (s : AppState) :
    AppState × Option Request :=
  if isfile s.entry_file = false then
    ({ s with dialogs := s.dialogs ++ [Dialog.error "Erreur" "Fichier invalide."] }, none)
  else
    let s1 := { s with txt := "", progressBar := 0, btn_start := false, btn_save := false }
    match MODELS.lookup s.combo_model, LANGS.lookup s.combo_lang with
    | some model_size, some lang_code =>
        ({ s1 with q := [] }, some { audio_path := s.entry_file,
                                     model_size := model_size, lang_code := lang_code })
    | _, _ => (s1, none)

/-- One iteration of the drain loop of `App.poll_queue`: apply a single
dequeued event to the UI state. -/
def applyEvent (s : AppState) (e : Event) : AppState :=
  match e with
  | Event.progress p => { s with progressBar := p }
  | Event.text t => { s with txt := s.txt ++ t }
  | Event.done payload =>
      { s with full_text := some payload, btn_save := true,
               dialogs := s.dialogs ++ [Dialog.info "Terminé" "Transcription terminée !"] }
  | Event.error msg =>
      { s with dialogs := s.dialogs ++ [Dialog.error "Erreur" msg], btn_start := true }

/-- Apply a list of events to the UI state, in order. -/
def drainEvents (s : AppState) (es : List Event) : AppState :=
  List.foldl applyEvent s es

/-- `App.poll_queue`: drain every currently queued event, in FIFO order,
applying each to the UI state; the queue is left empty. -/
def poll_queue (s : AppState) : AppState :=
  drainEvents { s with q := [] } s.q

/-! ## UTF-8 file round trip

`save_txt` opens the chosen path with `encoding="utf-8"` and writes
`self.full_text`.  Modelled from the spec: the Python text layer (external
to the repository) encodes the written string to UTF-8 bytes on disk and
decodes them back on read; the codec below is the standard UTF-8 encoding
of Unicode scalar values, with the decoder rejecting malformed input
(continuation bytes out of place, overlong forms, surrogates, values past
U+10FFFF). -/

/-- UTF-8 encoding of a single code point, as a list of byte values. -/
def utf8EncodeCp (c : Nat) : List Nat :=
  if c < 0x80 then [c]
  else if c < 0x800 then [0xC0 + c / 0x40, 0x80 + c % 0x40]
  else if c < 0x10000 then
    [0xE0 + c / 0x1000, 0x80 + c / 0x40 % 0x40, 0x80 + c % 0x40]
  else
    [0xF0 + c / 0x40000, 0x80 + c / 0x1000 % 0x40, 0x80 + c / 0x40 % 0x40,
     0x80 + c % 0x40]

/-- A continuation byte `10xxxxxx`. -/
def isCont (b : Nat) : Bool :=
  decide (0x80 ≤ b) && decide (b < 0xC0)

/-- Decode one UTF-8 sequence whose lead byte is `b0` and whose following
bytes are the front of `bs`; returns the code point together with how many
bytes of `bs` it consumed, or `none` on malformed input. -/
def utf8DecodeOne (b0 : Nat) (bs : List Nat) : Option (Nat × Nat) :=
  if b0 < 0x80 then some (b0, 0)
  else if b0 < 0xC2 then none
  else if b0 < 0xE0 then
    match bs with
    | b1 :: _ =>
      if isCont b1 then some ((b0 - 0xC0) * 0x40 + (b1 - 0x80), 1) else none
    | _ => none
  else if b0 < 0xF0 then
    match bs with
    | b1 :: b2 :: _ =>
      if isCont b1 && isCont b2 then
        let c := (b0 - 0xE0) * 0x1000 + (b1 - 0x80) * 0x40 + (b2 - 0x80)
        if 0x800 ≤ c ∧ ¬ (0xD800 ≤ c ∧ c < 0xE000) then some (c, 2) else none
      else none
    | _ => none
  else if b0 < 0xF5 then
    match bs with
    | b1 :: b2 :: b3 :: _ =>
      if isCont b1 && isCont b2 && isCont b3 then
        let c := (b0 - 0xF0) * 0x40000 + (b1 - 0x80) * 0x1000 +
                   (b2 - 0x80) * 0x40 + (b3 - 0x80)
        if 0x10000 ≤ c ∧ c < 0x110000 then some (c, 3) else none
      else none
    | _ => none
  else none

/-- UTF-8 decoding of a byte list into code points; `none` on malformed
input. -/
def utf8DecodeAux (bs : List Nat) : Option (List Nat) :=
  match bs with
  | [] => some []
  | b0 :: rest =>
    match utf8DecodeOne b0 rest with
    | none => none
    | some (c, n) => (utf8DecodeAux (rest.drop n)).map (fun cs => c :: cs)
termination_by bs.length
decreasing_by
  simp only [List.length_drop, List.length_cons]
  omega

/-- UTF-8 encoding of a string, as the byte values written to disk. -/
def utf8Encode (s : String) : List Nat :=
  (s.data.map Char.toNat).flatMap utf8EncodeCp

/-- UTF-8 decoding of disk bytes back into a string. -/
def utf8Decode (bs : List Nat) : Option String :=
  (utf8DecodeAux bs).map (fun cs => String.mk (cs.map Char.ofNat))

/-- `App.save_txt`, parametrised by the path chosen in the save dialog
(`none` when cancelled, matching the falsy test `if path:`) and the
current disk contents (a map from path to byte contents).  On a chosen
path the file is opened for writing (truncating it), `self.full_text` is
written UTF-8 encoded and the success dialog is shown; if the attribute
was never set, the attribute access raises inside the `try` after the
truncating open, and the `except` branch shows `str(e)` in an error
dialog.  OS write failures are outside the model (the disk map always
accepts the write). -/
def save_txt (chosen : Option String) (disk : String → Option (List Nat))
    (s : AppState) : (String → Option (List Nat)) × AppState :=
  match chosen with
  | none => (disk, s)
  | some path =>
    match s.full_text with
    | some t =>
        (fun p => if p = path then some (utf8Encode t) else disk p,
         { s with dialogs :=
             s.dialogs ++ [Dialog.info "Enregistré" ("Fichier enregistré :\n" ++ path)] })
    | none =>
        (fun p => if p = path then some [] else disk p,
         { s with dialogs :=
             s.dialogs ++ [Dialog.error "Erreur" "'App' object has no attribute 'full_text'"] })

/-! ## UTF-8 round trip lemmas -/

theorem utf8DecodeAux_nil : utf8DecodeAux [] = some [] := by
  rw [utf8DecodeAux]

theorem utf8DecodeAux_cons {b0 : Nat} {bs : List Nat} {c n : Nat}
    (h : utf8DecodeOne b0 bs = some (c, n)) :
    utf8DecodeAux (b0 :: bs) = (utf8DecodeAux (bs.drop n)).map (fun cs => c :: cs) := by
  rw [utf8DecodeAux, h]

theorem utf8DecodeAux_encode (c : Nat) (h : Nat.isValidChar c) (rest : List Nat) :
    utf8DecodeAux (utf8EncodeCp c ++ rest) =
      (utf8DecodeAux rest).map (fun cs => c :: cs) := by
  have hb : c < 0xD800 ∨ (0xDFFF < c ∧ c < 0x110000) := h
  by_cases h1 : c < 0x80
  · have henc : utf8EncodeCp c = [c] := by simp [utf8EncodeCp, h1]
    have hone : utf8DecodeOne c rest = some (c, 0) := by
      simp [utf8DecodeOne, h1]
    rw [henc]
    simpa using utf8DecodeAux_cons hone
  · by_cases h2 : c < 0x800
    · have e0 : ¬ (0xC0 + c / 0x40 < 0x80) := by omega
      have e1 : ¬ (0xC0 + c / 0x40 < 0xC2) := by omega
      have e2 : 0xC0 + c / 0x40 < 0xE0 := by omega
      have e3 : isCont (0x80 + c % 0x40) = true := by
        simp only [isCont, Bool.and_eq_true, decide_eq_true_eq]
        omega
      have hval : (0xC0 + c / 0x40 - 0xC0) * 0x40 + (0x80 + c % 0x40 - 0x80) = c := by
        omega
      have henc : utf8EncodeCp c = [0xC0 + c / 0x40, 0x80 + c % 0x40] := by
        simp [utf8EncodeCp, h1, h2]
      have hone : utf8DecodeOne (0xC0 + c / 0x40) ((0x80 + c % 0x40) :: rest) =
          some (c, 1) := by
        simp [utf8DecodeOne, e0, e1, e2, e3, hval]
        omega
      rw [henc]
      simpa using utf8DecodeAux_cons hone
    · by_cases h3 : c < 0x10000
      · have e0 : ¬ (0xE0 + c / 0x1000 < 0x80) := by omega
        have e1 : ¬ (0xE0 + c / 0x1000 < 0xC2) := by omega
        have e2 : ¬ (0xE0 + c / 0x1000 < 0xE0) := by omega
        have e3 : 0xE0 + c / 0x1000 < 0xF0 := by omega
        have e4 : isCont (0x80 + c / 0x40 % 0x40) = true := by
          simp only [isCont, Bool.and_eq_true, decide_eq_true_eq]
          omega
        have e5 : isCont (0x80 + c % 0x40) = true := by
          simp only [isCont, Bool.and_eq_true, decide_eq_true_eq]
          omega
        have hval : (0xE0 + c / 0x1000 - 0xE0) * 0x1000 +
            (0x80 + c / 0x40 % 0x40 - 0x80) * 0x40 + (0x80 + c % 0x40 - 0x80) = c := by
          omega
        have e6 : (0x800 : Nat) ≤ c := by omega
        have e7 : ¬ ((0xD800 : Nat) ≤ c ∧ c < 0xE000) := by omega
        have henc : utf8EncodeCp c =
            [0xE0 + c / 0x1000, 0x80 + c / 0x40 % 0x40, 0x80 + c % 0x40] := by
          simp [utf8EncodeCp, h1, h2, h3]
        have hone : utf8DecodeOne (0xE0 + c / 0x1000)
            ((0x80 + c / 0x40 % 0x40) :: (0x80 + c % 0x40) :: rest) = some (c, 2) := by
          simp [utf8DecodeOne, e0, e1, e2, e3, e4, e5, hval, e6, e7]
          omega
        rw [henc]
        simpa using utf8DecodeAux_cons hone
      · have hlt : c < 0x110000 := by omega
        have e0 : ¬ (0xF0 + c / 0x40000 < 0x80) := by omega
        have e1 : ¬ (0xF0 + c / 0x40000 < 0xC2) := by omega
        have e2 : ¬ (0xF0 + c / 0x40000 < 0xE0) := by omega
        have e3 : ¬ (0xF0 + c / 0x40000 < 0xF0) := by omega
        have e4 : 0xF0 + c / 0x40000 < 0xF5 := by omega
        have e5 : isCont (0x80 + c / 0x1000 % 0x40) = true := by
          simp only [isCont, Bool.and_eq_true, decide_eq_true_eq]
          omega
        have e6 : isCont (0x80 + c / 0x40 % 0x40) = true := by
          simp only [isCont, Bool.and_eq_true, decide_eq_true_eq]
          omega
        have e7 : isCont (0x80 + c % 0x40) = true := by
          simp only [isCont, Bool.and_eq_true, decide_eq_true_eq]
          omega
        have hval : (0xF0 + c / 0x40000 - 0xF0) * 0x40000 +
            (0x80 + c / 0x1000 % 0x40 - 0x80) * 0x1000 +
            (0x80 + c / 0x40 % 0x40 - 0x80) * 0x40 + (0x80 + c % 0x40 - 0x80) = c := by
          omega
        have e8 : (0x10000 : Nat) ≤ c := by omega
        have henc : utf8EncodeCp c =
            [0xF0 + c / 0x40000, 0x80 + c / 0x1000 % 0x40, 0x80 + c / 0x40 % 0x40,
             0x80 + c % 0x40] := by
          simp [utf8EncodeCp, h1, h2, h3]
        have hone : utf8DecodeOne (0xF0 + c / 0x40000)
            ((0x80 + c / 0x1000 % 0x40) :: (0x80 + c / 0x40 % 0x40) ::
              (0x80 + c % 0x40) :: rest) = some (c, 3) := by
          simp [utf8DecodeOne, e0, e1, e2, e3, e4, e5, e6, e7, hval, e8, hlt]
          omega
        rw [henc]
        simpa using utf8DecodeAux_cons hone

theorem utf8DecodeAux_encode_list :
    ∀ (cps : List Nat), (∀ c ∈ cps, Nat.isValidChar c) →
      utf8DecodeAux (cps.flatMap utf8EncodeCp) = some cps
  | [] => fun _ => by
    rw [List.flatMap_nil]
    exact utf8DecodeAux_nil
  | c :: rest => fun h => by
    rw [List.flatMap_cons,
      utf8DecodeAux_encode c (h c (List.mem_cons_self _ _)) _,
      utf8DecodeAux_encode_list rest (fun x hx => h x (List.mem_cons_of_mem _ hx))]
    rfl

/-- Writing any Lean string as UTF-8 and decoding the bytes gives the
string back (every `Char` is a Unicode scalar value). -/
theorem utf8Decode_utf8Encode (s : String) : utf8Decode (utf8Encode s) = some s := by
  have hvalid : ∀ c ∈ s.data.map Char.toNat, Nat.isValidChar c := by
    intro c hc
    simp only [List.mem_map] at hc
    obtain ⟨ch, _, rfl⟩ := hc
    exact ch.valid
  rw [utf8Decode, utf8Encode, utf8DecodeAux_encode_list _ hvalid]
  simp only [Option.map_some', Option.some.injEq]
  rw [List.map_map]
  have hid : (Char.ofNat ∘ Char.toNat) = id := funext fun c => Char.ofNat_toNat c
  rw [hid, List.map_id]

/-! ## Structural lemmas about the worker trace -/

theorem segLoop_eq (duration : ℚ) :
    ∀ (segs : List Segment) (d : ℚ) (acc : String),
      segLoop duration segs d acc =
        emittedPairs duration segs d ++
          [Event.done (acc ++ joinNL (segs.map Segment.text))]
  | [], d, acc => by simp [segLoop, emittedPairs, joinNL, String.append_empty]
  | seg :: rest, d, acc => by
    simp only [segLoop, emittedPairs, List.map_cons, joinNL,
      segLoop_eq duration rest, List.cons_append, List.nil_append]
    simp [String.append_assoc]

theorem isPairRun_emittedPairs (duration : ℚ) :
    ∀ (segs : List Segment) (d : ℚ), isPairRun (emittedPairs duration segs d) = true
  | [], _ => rfl
  | seg :: rest, d => by
    simp only [emittedPairs, isPairRun]
    exact isPairRun_emittedPairs duration rest _

theorem emittedPairs_no_terminal (duration : ℚ) :
    ∀ (segs : List Segment) (d : ℚ) (e : Event),
      e ∈ emittedPairs duration segs d → Event.isTerminal e = false
  | [], _, e => by simp [emittedPairs]
  | seg :: rest, d, e => by
    intro he
    simp only [emittedPairs, List.mem_cons] at he
    rcases he with h | h | h
    · subst h; rfl
    · subst h; rfl
    · exact emittedPairs_no_terminal duration rest _ e h

theorem textChunks_emittedPairs (duration : ℚ) :
    ∀ (segs : List Segment) (d : ℚ),
      textChunks (emittedPairs duration segs d) = segs.map Segment.text
  | [], _ => rfl
  | seg :: rest, d => by
    simp only [emittedPairs, textChunks, List.map_cons]
    exact congrArg _ (textChunks_emittedPairs duration rest _)

theorem emittedPairs_progress_le_one (duration : ℚ) :
    ∀ (segs : List Segment) (d : ℚ) (p : ℚ),
      p ∈ progressPayloads (emittedPairs duration segs d) → p ≤ 1
  | [], _, p => by simp [emittedPairs, progressPayloads]
  | seg :: rest, d, p => by
    intro hp
    simp only [emittedPairs, progressPayloads, List.mem_cons] at hp
    rcases hp with h | h
    · subst h; exact min_le_right _ _
    · exact emittedPairs_progress_le_one duration rest _ p h

theorem emittedPairs_mono (duration : ℚ) (hdur : 0 < duration) :
    ∀ (segs : List Segment) (d : ℚ),
      (∀ seg ∈ segs, seg.start ≤ seg.stop) →
      nondecreasingFrom (min (d / duration) 1)
        (progressPayloads (emittedPairs duration segs d)) = true
  | [], _, _ => rfl
  | seg :: rest, d, hsegs => by
    have h1 : seg.start ≤ seg.stop := hsegs seg (by simp)
    have hd : d ≤ d + (seg.stop - seg.start) := by linarith
    have hdiv : d / duration ≤ (d + (seg.stop - seg.start)) / duration :=
      (div_le_div_iff_of_pos_right hdur).mpr hd
    have hmin : min (d / duration) 1 ≤ min ((d + (seg.stop - seg.start)) / duration) 1 :=
      min_le_min hdiv le_rfl
    simp only [emittedPairs, progressPayloads, nondecreasingFrom,
      decide_eq_true_eq, Bool.and_eq_true]
    exact ⟨hmin, emittedPairs_mono duration hdur rest _ (fun t ht => hsegs t (by simp [ht]))⟩

theorem nondecreasingFrom_weaken (x : ℚ) (l : List ℚ)
    (h : nondecreasingFrom x l = true) : nondecreasing l = true := by
  cases l with
  | nil => rfl
  | cons a t =>
    simp only [nondecreasingFrom, Bool.and_eq_true] at h
    simpa [nondecreasing] using h.2

theorem append_singleton_inj {α : Type} {l m : List α} {a b : α}
    (h : l ++ [a] = m ++ [b]) : l = m ∧ a = b := by
  have h2 := List.append_inj' h rfl
  exact ⟨h2.1, by simpa using h2.2⟩

/-! ## Structural lemmas about the UI controller -/

theorem drainEvents_nil (s : AppState) : drainEvents s [] = s := rfl

theorem drainEvents_cons (s : AppState) (e : Event) (rest : List Event) :
    drainEvents s (e :: rest) = drainEvents (applyEvent s e) rest := rfl

theorem drainEvents_append (s : AppState) (es fs : List Event) :
    drainEvents s (es ++ fs) = drainEvents (drainEvents s es) fs := by
  simp [drainEvents, List.foldl_append]

theorem drainEvents_txt :
    ∀ (es : List Event) (s : AppState),
      (drainEvents s es).txt = s.txt ++ textConcat es
  | [], s => by simp [drainEvents_nil, textConcat, String.append_empty]
  | e :: rest, s => by
    rw [drainEvents_cons, drainEvents_txt rest]
    cases e <;> simp [applyEvent, textConcat, String.append_assoc]

theorem drainEvents_full_text_none :
    ∀ (es : List Event) (s : AppState), lastDone es = none →
      (drainEvents s es).full_text = s.full_text
  | [], s => fun _ => rfl
  | e :: rest, s => by
    intro h
    rw [drainEvents_cons]
    cases e with
    | done t => simp [lastDone] at h
    | progress p =>
      simp only [lastDone] at h
      rw [drainEvents_full_text_none rest _ h]; rfl
    | text t =>
      simp only [lastDone] at h
      rw [drainEvents_full_text_none rest _ h]; rfl
    | error m =>
      simp only [lastDone] at h
      rw [drainEvents_full_text_none rest _ h]; rfl

theorem drainEvents_full_text_some :
    ∀ (es : List Event) (s : AppState) (p : String), lastDone es = some p →
      (drainEvents s es).full_text = some p
  | [], s, p => by intro h; simp [lastDone] at h
  | e :: rest, s, p => by
    intro h
    rw [drainEvents_cons]
    cases e with
    | done t =>
      simp only [lastDone, Option.some.injEq] at h
      cases hrest : lastDone rest with
      | none =>
        rw [hrest] at h
        simp only [Option.getD_none] at h
        subst h
        rw [drainEvents_full_text_none rest _ hrest]; rfl
      | some q =>
        rw [hrest] at h
        simp only [Option.getD_some] at h
        subst h
        exact drainEvents_full_text_some rest _ q hrest
    | progress q =>
      simp only [lastDone] at h
      exact drainEvents_full_text_some rest _ p h
    | text t =>
      simp only [lastDone] at h
      exact drainEvents_full_text_some rest _ p h
    | error m =>
      simp only [lastDone] at h
      exact drainEvents_full_text_some rest _ p h

theorem start_spawn_state (isfile : String → Bool) (s s1 : AppState) (req : Request)
    (h : start_transcription isfile s = (s1, some req)) :
    s1 = { s with txt := "", progressBar := 0, btn_start := false,
                  btn_save := false, q := [] } := by
  unfold start_transcription at h
  split at h
  · simp at h
  · split at h
    · rw [Prod.mk.injEq] at h
      exact h.1.symm
    · simp at h

theorem progressPayloads_append :
    ∀ (xs ys : List Event),
      progressPayloads (xs ++ ys) = progressPayloads xs ++ progressPayloads ys
  | [], ys => rfl
  | e :: rest, ys => by
    cases e <;> simp [progressPayloads, progressPayloads_append rest ys]

/-! ## Claims -/

/-- Claim C1: for every engine outcome, the worker's event trace is a
(possibly empty) run of Progress/TextChunk pairs followed by exactly one
terminal event (`done` or `error`), with no event after the terminal one
and no terminal event inside the run. -/
theorem worker_trace_pairs_then_terminal (r : EngineResult) :
    ∃ (pre : List Event) (e : Event),
      worker_transcribe r = pre ++ [e] ∧ isPairRun pre = true ∧
        Event.isTerminal e = true ∧ ∀ x ∈ pre, Event.isTerminal x = false := by
  cases r with
  | loadError m =>
    exact ⟨[], Event.error ("Erreur chargement modèle : " ++ m), rfl, rfl, rfl, by simp⟩
  | transcribeError m =>
    exact ⟨[], Event.error ("Erreur transcription : " ++ m), rfl, rfl, rfl, by simp⟩
  | ok segs d =>
    refine ⟨emittedPairs (effDuration d) segs 0,
      Event.done ("" ++ joinNL (segs.map Segment.text)), ?_, ?_, rfl, ?_⟩
    · exact segLoop_eq (effDuration d) segs 0 ""
    · exact isPairRun_emittedPairs _ segs 0
    · exact fun x hx => emittedPairs_no_terminal _ segs 0 x hx

/-- Claim C2, counterexample: in the run on one segment `(0, 1, "a")` the
concatenation of the TextChunk payloads is `"a"` while the Done payload is
`"a\n"` (the worker appends a line break to `full_text` that it does not
emit as a chunk), so the two are not byte-for-byte equal. -/
theorem textConcat_ne_done_payload :
    textConcat (worker_transcribe (EngineResult.ok [⟨0, 1, "a"⟩] (some 1))) = "a" ∧
    lastDone (worker_transcribe (EngineResult.ok [⟨0, 1, "a"⟩] (some 1))) = some "a\n" ∧
    ("a" : String) ≠ "a\n" := by
  have htrace : worker_transcribe (EngineResult.ok [⟨0, 1, "a"⟩] (some 1)) =
      [Event.progress 1, Event.text "a", Event.done "a\n"] := by
    norm_num [worker_transcribe, segLoop, effDuration]
    decide
  rw [htrace]
  refine ⟨by decide, by decide, by decide⟩

/-- Claim C2 (amended): for every run that terminates in Done,
concatenating all TextChunk payloads in emission order, each followed by a
line break, yields the Done payload byte-for-byte. -/
theorem done_payload_eq_joinNL_chunks (r : EngineResult) (pre : List Event)
    (p : String) (h : worker_transcribe r = pre ++ [Event.done p]) :
    p = joinNL (textChunks pre) := by
  cases r with
  | loadError m =>
    have h2 := (append_singleton_inj (l := []) (by simpa using h)).2
    simp at h2
  | transcribeError m =>
    have h2 := (append_singleton_inj (l := []) (by simpa using h)).2
    simp at h2
  | ok segs d =>
    rw [worker_transcribe, segLoop_eq] at h
    obtain ⟨hpre, hdone⟩ := append_singleton_inj h
    injection hdone with hp
    subst hpre
    rw [textChunks_emittedPairs, ← hp]
    exact String.empty_append _

/-- Claim C2 (amended), witness at a concrete two-segment run. -/
theorem done_payload_eq_joinNL_chunks_witness :
    ("a\nb\n" : String) =
      joinNL (textChunks [Event.progress 1, Event.text "a",
        Event.progress 1, Event.text "b"]) :=
  done_payload_eq_joinNL_chunks
    (EngineResult.ok [⟨0, 1, "a"⟩, ⟨1, 2, "b"⟩] (some 1))
    [Event.progress 1, Event.text "a", Event.progress 1, Event.text "b"]
    "a\nb\n" (by norm_num [worker_transcribe, segLoop, effDuration]; decide)

/-- Claim C3, counterexample: with reported duration 2 and the ill-formed
segment list `[(0, 2, "a"), (5, 1, "b")]` (second segment ends before it
starts), the emitted Progress payloads are `[1, -1]`, which is not
monotonically non-decreasing; the claim as stated fails on such runs. -/
theorem progress_payloads_can_decrease :
    progressPayloads (worker_transcribe
      (EngineResult.ok [⟨0, 2, "a"⟩, ⟨5, 1, "b"⟩] (some 2))) = [1, -1] ∧
    nondecreasing [1, -1] = false := by
  have htrace : worker_transcribe (EngineResult.ok [⟨0, 2, "a"⟩, ⟨5, 1, "b"⟩] (some 2)) =
      [Event.progress 1, Event.text "a", Event.progress (-1), Event.text "b",
       Event.done "a\nb\n"] := by
    norm_num [worker_transcribe, segLoop, effDuration]
    decide
  rw [htrace]
  constructor
  · simp [progressPayloads]
  · have hle : ¬ ((1 : ℚ) ≤ -1) := by decide
    simp [nondecreasing, nondecreasingFrom, hle]

/-- Claim C3 (amended): every Progress payload is at most 1 in every run
(the `min(·, 1.0)` clamp), and in runs whose effective duration is
positive and whose segments all have `start ≤ end` the Progress payloads
are monotonically non-decreasing. -/
theorem progress_le_one_and_mono_of_wellformed :
    (∀ (r : EngineResult) (p : ℚ),
      p ∈ progressPayloads (worker_transcribe r) → p ≤ 1) ∧
    (∀ (segs : List Segment) (d : Option ℚ),
      (∀ seg ∈ segs, seg.start ≤ seg.stop) → 0 < effDuration d →
      nondecreasing (progressPayloads
        (worker_transcribe (EngineResult.ok segs d))) = true) := by
  constructor
  · intro r p hp
    cases r with
    | loadError m => simp [worker_transcribe, progressPayloads] at hp
    | transcribeError m => simp [worker_transcribe, progressPayloads] at hp
    | ok segs d =>
      rw [worker_transcribe, segLoop_eq, progressPayloads_append] at hp
      simp only [progressPayloads, List.append_nil] at hp
      exact emittedPairs_progress_le_one (effDuration d) segs 0 p hp
  · intro segs d hsegs hdur
    have h := emittedPairs_mono (effDuration d) hdur segs 0 hsegs
    have h2 := nondecreasingFrom_weaken _ _ h
    rw [worker_transcribe, segLoop_eq, progressPayloads_append]
    simpa [progressPayloads] using h2

/-- Claim C3 (amended), witness at a concrete well-formed run. -/
theorem progress_le_one_and_mono_witness :
    nondecreasing (progressPayloads (worker_transcribe
      (EngineResult.ok [⟨0, 1, "a"⟩] (some 2)))) = true :=
  progress_le_one_and_mono_of_wellformed.2 [⟨0, 1, "a"⟩] (some 2)
    (by decide) (by decide)

/-- Claim C9: the divisor of the progress fraction is never zero — when
the engine reports no duration (`None`) or a duration of `0`, the worker
substitutes `1` (`info.duration or 1`), and the substituted divisor is
nonzero for every reported duration. -/
theorem effDuration_fallback_nonzero :
    effDuration none = 1 ∧ effDuration (some 0) = 1 ∧
    ∀ d : Option ℚ, effDuration d ≠ 0 := by
  refine ⟨rfl, by simp [effDuration], ?_⟩
  intro d
  cases d with
  | none => simp [effDuration]
  | some x =>
    by_cases hx : x = 0
    · simp [effDuration, hx]
    · simp [effDuration, hx]

/-- Claim C10: on an empty segment sequence the worker emits exactly one
event, `done ""`, and no Progress or TextChunk events. -/
theorem empty_segments_single_done (d : Option ℚ) :
    worker_transcribe (EngineResult.ok [] d) = [Event.done ""] ∧
    progressPayloads (worker_transcribe (EngineResult.ok [] d)) = [] ∧
    textChunks (worker_transcribe (EngineResult.ok [] d)) = [] :=
  ⟨rfl, rfl, rfl⟩

/-- Claim C4, counterexample: in a reachable run (browse a valid file,
start, worker completes), processing the Done event enables Save and
stores the payload, but leaves the Start button disabled — the `done`
branch of `poll_queue` never re-enables `btn_start`, so from Completed the
Start action is not available again. -/
theorem done_leaves_start_disabled :
    ((poll_queue { (start_transcription (fun p => p == "a.wav")
        (browse_file (some "a.wav") initState)).1 with
        q := worker_transcribe (EngineResult.ok [⟨0, 1, "hello"⟩] (some 1)) }).btn_start
      = false) ∧
    ((poll_queue { (start_transcription (fun p => p == "a.wav")
        (browse_file (some "a.wav") initState)).1 with
        q := worker_transcribe (EngineResult.ok [⟨0, 1, "hello"⟩] (some 1)) }).btn_save
      = true) ∧
    ((poll_queue { (start_transcription (fun p => p == "a.wav")
        (browse_file (some "a.wav") initState)).1 with
        q := worker_transcribe (EngineResult.ok [⟨0, 1, "hello"⟩] (some 1)) }).full_text
      = some "hello\n") := by
  refine ⟨by decide, by decide, by decide⟩

/-- Claim C4 (amended): a Done event moves the UI to Completed — it stores
the payload as the Transcript Buffer and enables Save — but leaves the
Start button in its prior (disabled-during-run) state, so a new run cannot
be started directly from Completed; Start is re-enabled only by a
subsequent Browse with a chosen file (or by an Error event). -/
theorem done_event_ui_effect (s : AppState) (t : String) :
    (applyEvent s (Event.done t)).btn_save = true ∧
    (applyEvent s (Event.done t)).btn_start = s.btn_start ∧
    (applyEvent s (Event.done t)).full_text = some t ∧
    (∀ (path : String) (s2 : AppState), (browse_file (some path) s2).btn_start = true) ∧
    (∀ (m : String) (s3 : AppState), (applyEvent s3 (Event.error m)).btn_start = true) :=
  ⟨rfl, rfl, rfl, fun _ _ => rfl, fun _ _ => rfl⟩

/-- Claim C5, counterexample: `self.full_text` (the Transcript Buffer) is
not touched by `start_transcription`; immediately after starting a second
run the buffer still holds the first run's text `"one\n"` (while the text
view is cleared).  The buffer is overwritten only when the new run's Done
event is processed, not at the start of the run. -/
theorem second_start_keeps_old_buffer :
    ((start_transcription (fun p => p == "a.wav" || p == "b.wav")
        (browse_file (some "b.wav")
          (poll_queue { (start_transcription (fun p => p == "a.wav" || p == "b.wav")
              (browse_file (some "a.wav") initState)).1 with
              q := worker_transcribe (EngineResult.ok [⟨0, 1, "one"⟩] (some 1)) }))).1.txt
      = "") ∧
    ((start_transcription (fun p => p == "a.wav" || p == "b.wav")
        (browse_file (some "b.wav")
          (poll_queue { (start_transcription (fun p => p == "a.wav" || p == "b.wav")
              (browse_file (some "a.wav") initState)).1 with
              q := worker_transcribe (EngineResult.ok [⟨0, 1, "one"⟩] (some 1)) }))).1.full_text
      = some "one\n") := by
  refine ⟨by decide, by decide⟩

/-- Claim C5 (amended): starting a run clears the text view, resets
progress and empties the queue; from that state the displayed text after
draining any event list is exactly the concatenation of that run's
TextChunk payloads, and processing the run's Done event overwrites the
Transcript Buffer with the new payload — so once the second run completes,
neither the buffer nor the displayed text retains anything from the first
run (the stale buffer persists only until the new Done event, and Save is
disabled in between). -/
theorem start_resets_view_then_done_overwrites (s : AppState)
    (isfile : String → Bool) (s1 : AppState) (req : Request)
    (h : start_transcription isfile s = (s1, some req)) :
    s1.txt = "" ∧ s1.progressBar = 0 ∧ s1.q = [] ∧ s1.btn_save = false ∧
    (∀ es : List Event, (drainEvents s1 es).txt = textConcat es) ∧
    (∀ (es : List Event) (p : String),
      (drainEvents s1 (es ++ [Event.done p])).full_text = some p) := by
  have hs := start_spawn_state isfile s s1 req h
  subst hs
  refine ⟨rfl, rfl, rfl, rfl, ?_, ?_⟩
  · intro es
    rw [drainEvents_txt]
    exact String.empty_append _
  · intro es p
    rw [drainEvents_append]
    rfl

/-- Claim C5 (amended), witness: a concrete started run, draining a chunk
and a Done event. -/
theorem start_resets_view_then_done_overwrites_witness :
    (drainEvents (start_transcription (fun p => p == "a.wav")
        (browse_file (some "a.wav") initState)).1
      ([Event.text "x"] ++ [Event.done "x\n"])).full_text = some "x\n" :=
  (start_resets_view_then_done_overwrites
    (browse_file (some "a.wav") initState) (fun p => p == "a.wav")
    (start_transcription (fun p => p == "a.wav")
      (browse_file (some "a.wav") initState)).1
    ⟨"a.wav", "large-v3", "fr"⟩ (by decide)).2.2.2.2.2 [Event.text "x"] "x\n"

/-- Claim C6: when loading the engine fails with message `m`, the worker
emits exactly one event, `Error("Erreur chargement modèle : " ++ m)`, and
returns; after the UI (in its started state) drains that event, the Start
button is re-enabled and the Save button remains disabled. -/
theorem load_error_single_event_and_ui (m : String) (s : AppState)
    (isfile : String → Bool) (s1 : AppState) (req : Request)
    (h : start_transcription isfile s = (s1, some req)) :
    worker_transcribe (EngineResult.loadError m) =
      [Event.error ("Erreur chargement modèle : " ++ m)] ∧
    (drainEvents s1 (worker_transcribe (EngineResult.loadError m))).btn_start = true ∧
    (drainEvents s1 (worker_transcribe (EngineResult.loadError m))).btn_save = false := by
  have hs := start_spawn_state isfile s s1 req h
  subst hs
  exact ⟨rfl, rfl, rfl⟩

/-- Claim C6, witness at the spec's scenario message `"model not found"`. -/
theorem load_error_single_event_and_ui_witness :
    worker_transcribe (EngineResult.loadError "model not found") =
      [Event.error ("Erreur chargement modèle : " ++ "model not found")] ∧
    (drainEvents (start_transcription (fun p => p == "a.wav")
        (browse_file (some "a.wav") initState)).1
      (worker_transcribe (EngineResult.loadError "model not found"))).btn_start = true ∧
    (drainEvents (start_transcription (fun p => p == "a.wav")
        (browse_file (some "a.wav") initState)).1
      (worker_transcribe (EngineResult.loadError "model not found"))).btn_save = false :=
  load_error_single_event_and_ui "model not found"
    (browse_file (some "a.wav") initState) (fun p => p == "a.wav")
    (start_transcription (fun p => p == "a.wav")
      (browse_file (some "a.wav") initState)).1
    ⟨"a.wav", "large-v3", "fr"⟩ (by decide)

/-- Claim C7: a Start action on a path that is not an existing file spawns
no worker and places no event on the channel: it only shows the blocking
`"Fichier invalide."` error dialog and aborts, leaving every other part of
the state (including the queue) unchanged. -/
theorem invalid_path_no_spawn (s : AppState) (isfile : String → Bool)
    (h : isfile s.entry_file = false) :
    start_transcription isfile s =
      ({ s with dialogs := s.dialogs ++ [Dialog.error "Erreur" "Fichier invalide."] },
       none) ∧
    (start_transcription isfile s).2 = none ∧
    (start_transcription isfile s).1.q = s.q := by
  have h1 : start_transcription isfile s =
      ({ s with dialogs := s.dialogs ++ [Dialog.error "Erreur" "Fichier invalide."] },
       none) := by
    unfold start_transcription
    rw [if_pos h]
  refine ⟨h1, by rw [h1], by rw [h1]⟩

/-- Claim C7, witness at the initial state (empty path field, no file). -/
theorem invalid_path_no_spawn_witness :
    start_transcription (fun _ => false) initState =
      ({ initState with
          dialogs := [Dialog.error "Erreur" "Fichier invalide."] }, none) :=
  (invalid_path_no_spawn initState (fun _ => false) rfl).1

/-- Claim C8: for a completed run (a drained trace whose most recent Done
payload is `p`), the Save action writes to the chosen path exactly the
UTF-8 encoding of `p` with no transformation, and decoding the written
bytes yields `p` again (write/read round trip). -/
theorem save_writes_done_payload_roundtrip (s0 : AppState) (es : List Event)
    (p : String) (hp : lastDone es = some p) (path : String)
    (disk : String → Option (List Nat)) :
    (save_txt (some path) disk (drainEvents s0 es)).1 path = some (utf8Encode p) ∧
    utf8Decode (utf8Encode p) = some p := by
  have hft := drainEvents_full_text_some es s0 p hp
  constructor
  · unfold save_txt
    rw [hft]
    simp
  · exact utf8Decode_utf8Encode p

/-- Claim C8, witness on a non-ASCII payload. -/
theorem save_writes_done_payload_roundtrip_witness :
    (save_txt (some "out.txt") (fun _ => none)
        (drainEvents initState [Event.done "héllo"])).1 "out.txt" =
      some (utf8Encode "héllo") ∧
    utf8Decode (utf8Encode "héllo") = some "héllo" :=
  save_writes_done_payload_roundtrip initState [Event.done "héllo"] "héllo" rfl
    "out.txt" (fun _ => none)
